import Mathlib

/-!
Verification of the rule-driven code-analysis engine of the `super` static
analyzer (src/static_analysis/code.rs), shallowly embedded in Lean 4.

Modelling conventions:
* The `regex` crate is an external collaborator.  A compiled regex is
  modelled as a `Regex` structure carrying the pattern together with its
  observable behaviour (`captureNames`, `find_iter`, `captures`,
  `is_match`); `Regex::new` is an abstract parameter
  `rnew : String → Option Regex` threaded through the loader and the
  analyzer.  Concrete `Regex` values used in witnesses implement the
  documented behaviour of the corresponding real pattern.
* serde_json 0.8 `Value` is embedded as `Value` below; objects are
  association lists (the real `BTreeMap` has unique keys; lookups and
  lengths agree on the inputs considered).  Floating point numbers never
  influence the loader, so `VF64` carries no payload.
* Machine integers: `max_sdk` is stored through the Rust cast `sdk as i32`
  of a `u64`, embedded exactly as two's-complement truncation `asI32`.
* Byte offsets into file text are modelled as character indices (the
  analyzed code and the source's `get_line_for` walk `char_indices`; on the
  inputs considered the two coincide).
* Panics (`unwrap` on `strip_prefix` and on `captures`) are modelled by the
  `panicked` flag of `FileOut`; `print_warning` calls are counted in
  `warns`.
-/

set_option autoImplicit false

namespace SuperCode

/-- Model of serde_json 0.8 `Value` (constructors `Null`, `Bool`, `I64`,
`U64`, `F64`, `String`, `Array`, `Object`).  The float payload is never
inspected by `load_rules`, so it is omitted. -/
inductive Value where
  | VNull
  | VBool (b : Bool)
  | VI64 (i : Int)
  | VU64 (n : Nat)
  | VF64
  | VStr (s : String)
  | VArr (xs : List Value)
  | VObj (kvs : List (String × Value))

/-- Lookup of a key in a JSON object (`serde_json::Map::get`). -/
def jGet (kvs : List (String × Value)) (k : String) : Option Value :=
  (kvs.find? (fun kv => kv.1 == k)).map (fun kv => kv.2)

/-- Criticity is defined in the repository's lib.rs, which is not under
src/.  Modelled from the spec: an ordered enumeration
warning, low, medium, high, critical, parsed case-insensitively. -/
inductive Criticity where
  | Warning | Low | Medium | High | Critical
deriving DecidableEq

/-- Lower-casing through the character list (Rust `to_lowercase` on the
ASCII rule names). -/
def lowerStr (s : String) : String := (s.toList.map Char.toLower).asString

/-- Modelled from the spec: `Criticity::from_str`, case-insensitive. -/
def criticityFromStr (s : String) : Option Criticity :=
  match lowerStr s with
  | "warning" => some Criticity.Warning
  | "low" => some Criticity.Low
  | "medium" => some Criticity.Medium
  | "high" => some Criticity.High
  | "critical" => some Criticity.Critical
  | _ => none

/-- Permissions are an opaque closed set provided by the manifest module
(not under src/); the engine only compares membership.  We model a
permission as its string name. -/
abbrev Permission := String

/-- Model of a compiled `regex::Regex` (regex 0.1): the pattern string plus
its observable behaviour.  `find_iter` returns the non-overlapping match
spans (start, end) over a text, `captures` runs the regex on a text and, on
success, gives the named-capture lookup (`Captures::name`), `is_match`
tests for a match, and `captureNames` lists the capture group names in
index order (entry 0 is `none`, the unnamed whole-match group). -/
structure Regex where
  pattern : String
  captureNames : List (Option String)
  find_iter : String → List (Nat × Nat)
  captures : String → Option (String → Option String)
  is_match : String → Bool

/-- Model of the manifest collaborator (static_analysis/manifest.rs, not
under src/).  Modelled from the spec: it provides the minimum SDK integer
and a permission-membership predicate. -/
structure Manifest where
  min_sdk : Int
  needsPermission : Permission → Bool

/-- The `Rule` struct of code.rs. -/
structure Rule where
  regex : Regex
  permissions : List Permission
  forward_check : Option String
  max_sdk : Option Int
  whitelist : List Regex
  label : String
  description : String
  criticity : Criticity

/-- The error type: all loader failures surface as `Error::ParseError`. -/
inductive Error where
  | ParseError
deriving DecidableEq

/-- Substring containment, as Rust's `str::contains` for string patterns. -/
def listContainsSeg (needle : List Char) : List Char → Bool
  | [] => needle.isEmpty
  | c :: rest => needle.isPrefixOf (c :: rest) || listContainsSeg needle rest

/-- String form of `listContainsSeg`. -/
def strContains (hay needle : String) : Bool :=
  listContainsSeg needle.toList hay.toList

/-- Rust `u64 as i32`: truncate to the low 32 bits and reinterpret as a
signed two's-complement integer. -/
def asI32 (n : Nat) : Int :=
  let r : Nat := n % 2 ^ 32
  if r < 2 ^ 31 then (r : Int) else (r : Int) - 2 ^ 32

/-! ## Rule loader (`load_rules`, code.rs lines 364-601)

The loader is split per field, following the source order exactly:
object check, 4-8 key count, `regex`, `max_sdk`, `permissions`,
`forward_check`, `label`, `description`, `criticity`, `whitelist`.
Every failure is `Error::ParseError` (the criticity branch propagates the
`Criticity::from_str` error, which is modelled as the same value). -/

/-- The `regex` field: must be a string that compiles. -/
def parseRegexField (rnew : String → Option Regex) (kvs : List (String × Value)) :
    Except Error Regex :=
  match jGet kvs "regex" with
  | some (Value.VStr r) =>
    match rnew r with
    | some re => Except.ok re
    | none => Except.error Error.ParseError
  | _ => Except.error Error.ParseError

/-- The `max_sdk` field: `Some(&Value::U64(sdk)) => Some(sdk as i32)`. -/
def parseMaxSdkField (kvs : List (String × Value)) : Except Error (Option Int) :=
  match jGet kvs "max_sdk" with
  | some (Value.VU64 sdk) => Except.ok (some (asI32 sdk))
  | none => Except.ok none
  | _ => Except.error Error.ParseError

/-- The `permissions` field: an array of strings, each resolving through
`Permission::from_str` (modelled by the parameter `pp`). -/
def parsePermList (pp : String → Option Permission) : List Value → Except Error (List Permission)
  | [] => Except.ok []
  | Value.VStr p :: rest =>
    match pp p with
    | some perm => do
      let others ← parsePermList pp rest
      pure (perm :: others)
    | none => Except.error Error.ParseError
  | _ :: _ => Except.error Error.ParseError

/-- Dispatch on the `permissions` field. -/
def parsePermissionsField (pp : String → Option Permission) (kvs : List (String × Value)) :
    Except Error (List Permission) :=
  match jGet kvs "permissions" with
  | some (Value.VArr v) => parsePermList pp v
  | some _ => Except.error Error.ParseError
  | none => Except.ok []

/-- First validation loop of the `forward_check` branch: for each capture
name, a declared `fc1` (resp. `fc2`) requires the literal placeholder
in the template (code.rs lines 475-498). -/
def fcPlaceholdersOk (names : List (Option String)) (s : String) : Bool :=
  names.all (fun cap =>
    match cap with
    | some "fc1" => strContains s "{fc1}"
    | some "fc2" => strContains s "{fc2}"
    | _ => true)

/-- Drop everything up to and including the first element satisfying `p`;
`none` if no element satisfies it.  This models `Iterator::find`: the
iterator is left positioned just after the found element. -/
def afterFirst (p : Option String → Bool) : List (Option String) → Option (List (Option String))
  | [] => none
  | c :: rest => if p c then some rest else afterFirst p rest

/-- Second validation of the `forward_check` branch (code.rs lines
500-507).  The source reuses one `capture_names()` iterator for both
`find` calls, so the `fc1` search only inspects the names strictly after
the first `fc2`:
`capture_names.find(fc2).is_some() && capture_names.find(fc1).is_none()`. -/
def fc2WithoutFc1After (names : List (Option String)) : Bool :=
  match afterFirst (fun c => c == some "fc2") names with
  | some rest => !(rest.any (fun c => c == some "fc1"))
  | none => false

/-- The `forward_check` field with its capture/placeholder validation. -/
def parseForwardCheckField (re : Regex) (kvs : List (String × Value)) :
    Except Error (Option String) :=
  match jGet kvs "forward_check" with
  | some (Value.VStr s) =>
    if !fcPlaceholdersOk re.captureNames s then Except.error Error.ParseError
    else if fc2WithoutFc1After re.captureNames then Except.error Error.ParseError
    else Except.ok (some s)
  | none => Except.ok none
  | _ => Except.error Error.ParseError

/-- The `label` field. -/
def parseLabelField (kvs : List (String × Value)) : Except Error String :=
  match jGet kvs "label" with
  | some (Value.VStr l) => Except.ok l
  | _ => Except.error Error.ParseError

/-- The `description` field. -/
def parseDescriptionField (kvs : List (String × Value)) : Except Error String :=
  match jGet kvs "description" with
  | some (Value.VStr d) => Except.ok d
  | _ => Except.error Error.ParseError

/-- The `criticity` field. -/
def parseCriticityField (kvs : List (String × Value)) : Except Error Criticity :=
  match jGet kvs "criticity" with
  | some (Value.VStr c) =>
    match criticityFromStr c with
    | some cr => Except.ok cr
    | none => Except.error Error.ParseError
  | _ => Except.error Error.ParseError

/-- Elementwise compilation of the `whitelist` array. -/
def parseWhiteList (rnew : String → Option Regex) : List Value → Except Error (List Regex)
  | [] => Except.ok []
  | Value.VStr r :: rest =>
    match rnew r with
    | some re => do
      let others ← parseWhiteList rnew rest
      pure (re :: others)
    | none => Except.error Error.ParseError
  | _ :: _ => Except.error Error.ParseError

/-- Dispatch on the `whitelist` field. -/
def parseWhitelistField (rnew : String → Option Regex) (kvs : List (String × Value)) :
    Except Error (List Regex) :=
  match jGet kvs "whitelist" with
  | some (Value.VArr v) => parseWhiteList rnew v
  | some _ => Except.error Error.ParseError
  | none => Except.ok []

/-- Field parsing of one rule object, in the exact source order. -/
def loadRuleFields (rnew : String → Option Regex) (pp : String → Option Permission)
    (kvs : List (String × Value)) : Except Error Rule := do
  let regex ← parseRegexField rnew kvs
  let max_sdk ← parseMaxSdkField kvs
  let permissions ← parsePermissionsField pp kvs
  let forward_check ← parseForwardCheckField regex kvs
  let label ← parseLabelField kvs
  let description ← parseDescriptionField kvs
  let criticity ← parseCriticityField kvs
  let whitelist ← parseWhitelistField rnew kvs
  pure { regex := regex, permissions := permissions, forward_check := forward_check,
         max_sdk := max_sdk, whitelist := whitelist, label := label,
         description := description, criticity := criticity }

/-- Load one rule object: it must be an object of 4 to 8 keys, then every
field parses. -/
def loadRule (rnew : String → Option Regex) (pp : String → Option Permission) :
    Value → Except Error Rule
  | Value.VObj kvs =>
    if kvs.length < 4 ∨ kvs.length > 8 then Except.error Error.ParseError
    else loadRuleFields rnew pp kvs
  | _ => Except.error Error.ParseError

/-- Load every rule of the array, preserving order; first failure aborts. -/
def loadRuleList (rnew : String → Option Regex) (pp : String → Option Permission) :
    List Value → Except Error (List Rule)
  | [] => Except.ok []
  | r :: rest => do
    let rl ← loadRule rnew pp r
    let rls ← loadRuleList rnew pp rest
    pure (rl :: rls)

/-- Model of `load_rules`: the parsed document must be a JSON array of rule
objects. -/
def load_rules (rnew : String → Option Regex) (pp : String → Option Permission)
    (doc : Value) : Except Error (List Rule) :=
  match doc with
  | Value.VArr rs => loadRuleList rnew pp rs
  | _ => Except.error Error.ParseError

/-- Whether a load succeeded (used to state acceptance without comparing
`Rule` values, which contain behaviour functions). -/
def loadOk (r : Except Error (List Rule)) : Bool :=
  match r with
  | Except.ok _ => true
  | Except.error _ => false

/-! ## File analysis (`analyze_file`, code.rs lines 145-268)

Paths are lists of components (Rust `Path` comparisons and
`strip_prefix` are component-based).  The shared vulnerability sink, the
warnings printed, and thread panics are modelled by `FileOut`. -/

/-- A reported finding (`Vulnerability::new` is always called with `Some`
for the optional path, lines and code arguments, so the fields are plain).
`file_path` is relative to the project root. -/
structure Vulnerability where
  criticity : Criticity
  label : String
  description : String
  file_path : List String
  start_line : Nat
  end_line : Nat
  code : String
deriving DecidableEq

/-- Observable outcome of a piece of analysis: the findings pushed to the
sink, the number of warnings printed, and whether the thread panicked
(an `unwrap` failure).  Findings pushed before a panic survive in the
shared sink. -/
structure FileOut where
  vulns : List Vulnerability
  warns : Nat
  panicked : Bool
deriving DecidableEq

/-- Sequencing of outcomes: once panicked, nothing further runs. -/
def seqOut (a b : FileOut) : FileOut :=
  if a.panicked then a
  else { vulns := a.vulns ++ b.vulns, warns := a.warns + b.warns, panicked := b.panicked }

/-- Loop of `get_line_for`: walk `char_indices`, break when the running
index reaches `index`, counting newline characters seen before it. -/
def glfGo (index : Nat) : Nat → Nat → List Char → Nat
  | _, line, [] => line
  | i, line, c :: rest =>
    if i = index then line
    else glfGo index (i + 1) (if c = '\n' then line + 1 else line) rest

/-- Model of `get_line_for` (code.rs lines 257-268): zero-based line of the given
offset, by counting `'\n'` strictly before it. -/
def get_line_for (index : Nat) (text : String) : Nat :=
  glfGo index 0 0 text.toList

/-- The slice `&code[s..e]` (offsets are character indices here). -/
def sliceStr (t : String) (s e : Nat) : String :=
  ((t.toList.take e).drop s).asString

/-- Model of `Path::strip_prefix`, component-based; `none` models the `Err` case. -/
def stripPre : List String → List String → Option (List String)
  | [], p => some p
  | _ :: _, [] => none
  | a :: pr, b :: pb => if a = b then stripPre pr pb else none

/-- Split a character list on a separator character (`str::split`
semantics: the empty list yields one empty chunk). -/
def splitOnChar (sep : Char) : List Char → List (List Char)
  | [] => [[]]
  | c :: rest =>
    let r := splitOnChar sep rest
    if c = sep then [] :: r
    else
      match r with
      | [] => [[c]]
      | g :: gs => (c :: g) :: gs

/-- Join line chunks with newline separators. -/
def joinLines : List (List Char) → List Char
  | [] => []
  | [l] => l
  | l :: rest => l ++ '\n' :: joinLines rest

/-- get_code lives in the repository's lib.rs, which is not under src/.
Modelled from the spec: the text spanned by the start and end line
indices, inclusive. -/
def get_code (text : String) (start_line end_line : Nat) : String :=
  (joinLines (((splitOnChar '\n' text.toList).drop start_line).take
    (end_line - start_line + 1))).asString

/-- Construction of one finding for the match span `(s, e)` (the
`results.push(Vulnerability::new(...))` calls). -/
def mk_vuln (rule : Rule) (rel : List String) (code : String) (s e : Nat) : Vulnerability :=
  { criticity := rule.criticity, label := rule.label, description := rule.description,
    file_path := rel,
    start_line := get_line_for s code, end_line := get_line_for e code,
    code := get_code code (get_line_for s code) (get_line_for e code) }

/-- SDK gate (code.rs lines 157-161): skip the rule when the manifest is
present, `max_sdk` is set, and `max_sdk < manifest.min_sdk`. -/
def sdkSkip (rule : Rule) (manifest : Option Manifest) : Bool :=
  match manifest, rule.max_sdk with
  | some m, some ms => ms < m.min_sdk
  | _, _ => false

/-- Permission gate (code.rs lines 163-171): skip the rule when some listed
permission is unavailable (`manifest.is_none() || !needs_permission(p)`). -/
def permSkip (rule : Rule) (manifest : Option Manifest) : Bool :=
  rule.permissions.any (fun p =>
    match manifest with
    | none => true
    | some m => !m.needsPermission p)

/-- Substitution of the captures into the forward-check template: each
placeholder is replaced only when the capture is present. -/
def subst_check (check : String) (caps : String → Option String) : String :=
  let r1 := match caps "fc1" with
    | some t => check.replace "{fc1}" t
    | none => check
  match caps "fc2" with
  | some t => r1.replace "{fc2}" t
  | none => r1

/-- Emission loop over the secondary (forward-check) matches: one finding
per span, no whitelist; each push strips the project-root prefix with
`unwrap` (panic on failure). -/
def emit_secondary (rule : Rule) (path dist : List String) (code : String) :
    List (Nat × Nat) → FileOut
  | [] => { vulns := [], warns := 0, panicked := false }
  | (s, e) :: rest =>
    match stripPre dist path with
    | none => { vulns := [], warns := 0, panicked := true }
    | some rel =>
      seqOut { vulns := [mk_vuln rule rel code s e], warns := 0, panicked := false }
        (emit_secondary rule path dist code rest)

/-- The `'rule` loop over the primary match spans (code.rs lines 173-251):
whitelist filter, then direct emission or the forward-check branch.  A
forward-check compile failure warns and breaks the loop; the `captures`
and `strip_prefix` unwraps panic on failure. -/
def process_spans (rnew : String → Option Regex) (rule : Rule) (path dist : List String)
    (code : String) : List (Nat × Nat) → FileOut
  | [] => { vulns := [], warns := 0, panicked := false }
  | (s, e) :: rest =>
    if rule.whitelist.any (fun w => w.is_match (sliceStr code s e)) then
      process_spans rnew rule path dist code rest
    else
      match rule.forward_check with
      | none =>
        match stripPre dist path with
        | none => { vulns := [], warns := 0, panicked := true }
        | some rel =>
          seqOut { vulns := [mk_vuln rule rel code s e], warns := 0, panicked := false }
            (process_spans rnew rule path dist code rest)
      | some check =>
        match rule.regex.captures (sliceStr code s e) with
        | none => { vulns := [], warns := 0, panicked := true }
        | some caps =>
          match rnew (subst_check check caps) with
          | none => { vulns := [], warns := 1, panicked := false }
          | some re2 =>
            seqOut (emit_secondary rule path dist code (re2.find_iter code))
              (process_spans rnew rule path dist code rest)

/-- One iteration of the `'check` loop: gates, then the span loop over the
primary matches. -/
def process_rule (rnew : String → Option Regex) (rule : Rule) (manifest : Option Manifest)
    (path dist : List String) (code : String) : FileOut :=
  if sdkSkip rule manifest then { vulns := [], warns := 0, panicked := false }
  else if permSkip rule manifest then { vulns := [], warns := 0, panicked := false }
  else process_spans rnew rule path dist code (rule.regex.find_iter code)

/-- Model of `analyze_file` on already-read file text: evaluate every rule in
catalog order (a panic aborts the remaining rules). -/
def analyze_file (rnew : String → Option Regex) (path dist : List String)
    (rules : List Rule) (manifest : Option Manifest) (code : String) : FileOut :=
  match rules with
  | [] => { vulns := [], warns := 0, panicked := false }
  | r :: rs => seqOut (process_rule rnew r manifest path dist code)
      (analyze_file rnew path dist rs manifest code)

/-! ## Worker loop (code.rs lines 60-95)

A queued file: its absolute path and its content (`none` models a
`File::open`/`read_to_string` failure, including non-UTF-8 bytes).  The
model runs one worker; the spec states the multiset of findings does not
depend on the thread count. -/

/-- One entry of the shared work queue. -/
structure FileJob where
  path : List String
  content : Option String
deriving DecidableEq

/-- Worker body over the pop order: an `analyze_file` error (failed
open/read) warns and continues; a panic terminates the worker, leaving the
remaining queue unprocessed. -/
def workerGo (rnew : String → Option Regex) (dist : List String) (rules : List Rule)
    (manifest : Option Manifest) : List FileJob → FileOut
  | [] => { vulns := [], warns := 0, panicked := false }
  | j :: rest =>
    match j.content with
    | none => seqOut { vulns := [], warns := 1, panicked := false }
        (workerGo rnew dist rules manifest rest)
    | some code => seqOut (analyze_file rnew j.path dist rules manifest code)
        (workerGo rnew dist rules manifest rest)

/-- One worker draining the LIFO queue: `Vec::pop` takes from the back, so
the pop order is the reversed queue. -/
def run_queue (rnew : String → Option Regex) (dist : List String) (rules : List Rule)
    (manifest : Option Manifest) (queue : List FileJob) : FileOut :=
  workerGo rnew dist rules manifest queue.reverse

/-! ## Source walker (`add_files_to_vec`, code.rs lines 270-317)

A directory listing is `Option (List Entry)`: `none` models a
`fs::read_dir` failure.  An `Entry.err` models an `Err` item yielded while
iterating the directory (warned, then `return Err(..)`); a `file_type()`
failure likewise unwinds the walk (not modelled separately).  Walker
results are `(collected files, warnings, success flag)`; on failure the
error propagates through every enclosing `try!`. -/

/-- A directory entry of the modelled filesystem. -/
inductive Entry where
  | file (name : String) (content : Option String)
  | dir (name : String) (sub : Option (List Entry))
  | err

/-- A collected file: project-root-relative path and content. -/
abbrev FileRec := List String × Option String

/-- Split a character list on dots. -/
def splitOnDot : List Char → List (List Char) := splitOnChar '.'

/-- Rust `Path::extension()` of a file name: the part after the last dot,
none when there is no dot or the only dot leads the name. -/
def extOf (name : String) : Option String :=
  match splitOnDot name.toList with
  | [] => none
  | [_] => none
  | first :: rest =>
    if first = [] ∧ rest.length = 1 then none
    else (rest.getLast?).map (fun l => l.asString)

/-- Rust `str::starts_with` for string patterns. -/
def strStarts (s t : String) : Bool := t.toList.isPrefixOf s.toList

/-- File filter (code.rs lines 305-313): an extension must exist, the name
must not be AndroidManifest.xml, R.java or R$*, and the extension must be
exactly xml or java. -/
def keep_file (n : String) : Bool :=
  match extOf n with
  | none => false
  | some ext =>
    n ≠ "AndroidManifest.xml" && n ≠ "R.java" && !(strStarts n "R$") &&
      (ext = "xml" || ext = "java")

/-- The hard-excluded relative subtrees (code.rs lines 274-278). -/
def excluded_rel (r : List String) : Bool :=
  r = ["classes", "android"] || r = ["classes", "com", "google", "android", "gms"] ||
    r = ["smali"]

/-- Walk one directory listing at relative path `r`.  Files passing
`keep_file` are appended; a subdirectory is entered unless it is named
`original` (caller-side check) or its relative path is excluded
(callee-side check, done before `read_dir`); an `Entry.err` warns and
aborts, an unreadable listing aborts, and either failure propagates. -/
def walk_entries (r : List String) (vec : List FileRec) :
    List Entry → List FileRec × Nat × Bool
  | [] => (vec, 0, true)
  | Entry.err :: _ => (vec, 1, false)
  | Entry.file n c :: rest =>
    walk_entries r (if keep_file n then vec ++ [(r ++ [n], c)] else vec) rest
  | Entry.dir n sub :: rest =>
    if n = "original" then walk_entries r vec rest
    else if excluded_rel (r ++ [n]) then walk_entries r vec rest
    else
      match sub with
      | none => (vec, 0, false)
      | some l =>
        match walk_entries (r ++ [n]) vec l with
        | (vec', w, true) =>
          match walk_entries r vec' rest with
          | (vec'', w', ok) => (vec'', w + w', ok)
        | (vec', w, false) => (vec', w, false)

/-- Model of `add_files_to_vec` at relative path `r` over the directory's listing
(`none` = `fs::read_dir` failed). -/
def add_files_to_vec (r : List String) (vec : List FileRec)
    (listing : Option (List Entry)) : List FileRec × Nat × Bool :=
  if excluded_rel r then (vec, 0, true)
  else
    match listing with
    | none => (vec, 0, false)
    | some l => walk_entries r vec l

/-! ## Engine pipeline (`code_analysis`, code.rs lines 21-143)

Walk the project root, queue the collected files, run the worker.  The
walker's partial results are used even when the walk failed (the engine
only warns that results might be incomplete). -/

/-- The sequential model of `code_analysis`: findings of the scan of the
tree rooted at the project root `dist`. -/
def code_analysis (rnew : String → Option Regex) (root : Option (List Entry))
    (rules : List Rule) (manifest : Option Manifest) (dist : List String) : FileOut :=
  match add_files_to_vec [] [] root with
  | (files, _, _) =>
    run_queue rnew dist rules manifest
      (files.map (fun fc => { path := dist ++ fc.1, content := fc.2 }))

/-! ## Concrete regex models

Witnesses and counterexamples instantiate the abstract regex interface
with executable models of specific real patterns.  Scanners use a fuel
argument (initialised to the text length, an upper bound on the number of
scan steps, each of which consumes at least one character) so that they
are structurally recursive and reduce definitionally. -/

/-- Non-overlapping left-to-right occurrences of a literal pattern:
at each position, emit a match and jump past it, or advance by one. -/
def litScanF (pat : List Char) : Nat → Nat → List Char → List (Nat × Nat)
  | 0, _, _ => []
  | fuel + 1, i, cs =>
    if cs.isEmpty then []
    else if pat.isPrefixOf cs then
      (i, i + pat.length) :: litScanF pat fuel (i + pat.length) (cs.drop pat.length)
    else litScanF pat fuel (i + 1) (cs.drop 1)

/-- Match spans of a literal (regex-metacharacter-free) pattern in a text;
the empty pattern is never used. -/
def litSpans (lit : String) (text : String) : List (Nat × Nat) :=
  if lit.toList.isEmpty then []
  else litScanF lit.toList text.toList.length 0 text.toList

/-- Model of the compiled regex for a literal pattern: no named capture
groups, `captures` succeeds exactly when a match exists (and then no named
group is bound). -/
def litRegex (lit : String) : Regex :=
  { pattern := lit, captureNames := [none],
    find_iter := fun t => litSpans lit t,
    captures := fun t => if (litSpans lit t).isEmpty then none else some (fun _ => none),
    is_match := fun t => !(litSpans lit t).isEmpty }

/-- Unicode word character (`\w`), restricted to the ASCII inputs used. -/
def isWordChar (c : Char) : Bool := c.isAlphanum || c = '_'

/-- Whether the pattern `foo\B` matches at the head of `cs`: the literal
`foo` followed by a position that is not a word boundary.  The character
before that position is `o` (a word character), so `\B` holds exactly when
the next character exists and is a word character. -/
def fooNBAtHead (cs : List Char) : Bool :=
  cs.take 3 == ['f', 'o', 'o'] &&
    (match cs.drop 3 with
     | c :: _ => isWordChar c
     | [] => false)

/-- Scanner for the pattern `foo\B`: on a match emit it and resume after
it, otherwise advance one position — the regex crate's leftmost
non-overlapping `find_iter` semantics for this pattern (the literal `foo`
cannot overlap itself). -/
def fooNBScanF : Nat → Nat → List Char → List (Nat × Nat)
  | 0, _, _ => []
  | fuel + 1, i, cs =>
    if cs.isEmpty then []
    else if fooNBAtHead cs then (i, i + 3) :: fooNBScanF fuel (i + 3) (cs.drop 3)
    else fooNBScanF fuel (i + 1) (cs.drop 1)

/-- Model of the compiled regex `foo\B` (no named groups). -/
def fooNB : Regex :=
  { pattern := "foo\\B", captureNames := [none],
    find_iter := fun t => fooNBScanF t.toList.length 0 t.toList,
    captures := fun t =>
      if (fooNBScanF t.toList.length 0 t.toList).isEmpty then none
      else some (fun _ => none),
    is_match := fun t => !(fooNBScanF t.toList.length 0 t.toList).isEmpty }

/-- A compiled regex of which only the capture-name list is ever consulted
(the loader never runs a rule's regex). -/
def capRegex (pat : String) (names : List (Option String)) : Regex :=
  { pattern := pat, captureNames := names,
    find_iter := fun _ => [], captures := fun _ => none, is_match := fun _ => false }

/-- Witness regex engine (`Regex::new`).  The named-capture patterns map to
their capture-name lists, `"("` fails to compile (unclosed group), and the
remaining patterns used through it are metacharacter-free literals. -/
def wEngine (p : String) : Option Regex :=
  if p = "(?P<fc1>a)(?P<fc2>b)" then some (capRegex p [none, some "fc1", some "fc2"])
  else if p = "(?P<fc2>b)(?P<fc1>a)" then some (capRegex p [none, some "fc2", some "fc1"])
  else if p = "(" then none
  else some (litRegex p)

/-- Witness permission resolver: `Permission::from_str` restricted to the
names used in tests (all of them known). -/
def ppAll (s : String) : Option Permission := some s

/-- The name-level conditions of the file filter. -/
def goodName (n : String) : Prop :=
  n ≠ "AndroidManifest.xml" ∧ n ≠ "R.java" ∧ strStarts n "R$" = false ∧
    (extOf n = some "xml" ∨ extOf n = some "java")

/-- A project-relative path that survived all walker filters: not under an
excluded subtree, not under a directory named original, and with an
admissible file name. -/
def goodPath (p : List String) : Prop :=
  ¬ ["classes", "android"] <+: p ∧ ¬ ["classes", "com", "google", "android", "gms"] <+: p ∧
    ¬ ["smali"] <+: p ∧ "original" ∉ p ∧ ∃ n, p.getLast? = some n ∧ goodName n

/-- Invariant of the relative path of a directory the walker enters. -/
def preDir (r : List String) : Prop :=
  ¬ ["classes", "android"] <+: r ∧ ¬ ["classes", "com", "google", "android", "gms"] <+: r ∧
    ¬ ["smali"] <+: r ∧ "original" ∉ r

/-! ## Concrete instances used by witnesses and counterexamples -/

/-- Witness engine for the analyzer: every pattern used through it is a
metacharacter-free literal. -/
def rnewLit (p : String) : Option Regex := some (litRegex p)

/-- A minimal rule matching the literal `b`, no gates, no forward check. -/
def rLitB : Rule :=
  { regex := litRegex "b", permissions := [], forward_check := none, max_sdk := none,
    whitelist := [], label := "L", description := "D", criticity := Criticity.Warning }

/-- A rule matching the literal `a` with forward-check template `b`. -/
def fcRule : Rule :=
  { regex := litRegex "a", permissions := [], forward_check := some "b", max_sdk := none,
    whitelist := [], label := "L", description := "D", criticity := Criticity.Warning }

/-- A rule whose regex is `foo\B` with a forward check. -/
def fooRule : Rule :=
  { regex := fooNB, permissions := [], forward_check := some "bar", max_sdk := none,
    whitelist := [], label := "L", description := "D", criticity := Criticity.Warning }

/-- Rule object declaring `fc1` before `fc2` (the natural order), with both
placeholders present in the forward check: by the documented contract it
must load. -/
def fcBugObj : Value :=
  Value.VObj [("criticity", Value.VStr "warning"), ("description", Value.VStr "d"),
    ("forward_check", Value.VStr "x{fc1}y{fc2}"), ("label", Value.VStr "l"),
    ("regex", Value.VStr "(?P<fc1>a)(?P<fc2>b)")]

/-- The same rule object with the capture declarations swapped
(`fc2` before `fc1`). -/
def fcOkObj : Value :=
  Value.VObj [("criticity", Value.VStr "warning"), ("description", Value.VStr "d"),
    ("forward_check", Value.VStr "x{fc1}y{fc2}"), ("label", Value.VStr "l"),
    ("regex", Value.VStr "(?P<fc2>b)(?P<fc1>a)")]

/-- A five-key rule object containing the unknown top-level key `bogus`
next to the four required fields. -/
def bogusObj : Value :=
  Value.VObj [("bogus", Value.VStr "z"), ("criticity", Value.VStr "warning"),
    ("description", Value.VStr "d"), ("label", Value.VStr "l"), ("regex", Value.VStr "p")]

/-- A rule object with only three keys. -/
def threeKeyObj : Value :=
  Value.VObj [("criticity", Value.VStr "warning"), ("description", Value.VStr "d"),
    ("label", Value.VStr "l")]

/-- Rule object with a `max_sdk` entry. -/
def sdkObj (m : Nat) : Value :=
  Value.VObj [("criticity", Value.VStr "warning"), ("description", Value.VStr "d"),
    ("label", Value.VStr "l"), ("max_sdk", Value.VU64 m), ("regex", Value.VStr "p")]

/-- The rule that loading `sdkObj m` produces. -/
def sdkRule (m : Nat) : Rule :=
  { regex := litRegex "p", permissions := [], forward_check := none,
    max_sdk := some (asI32 m), whitelist := [], label := "l", description := "d",
    criticity := Criticity.Warning }

/-- A project tree whose first directory yields an entry error, followed by
a sibling directory holding a scannable file. -/
def badTree : Option (List Entry) :=
  some [Entry.dir "a" (some [Entry.err]),
    Entry.dir "b" (some [Entry.file "x.java" (some "")])]

/-- A one-file project tree. -/
def wTree : Option (List Entry) := some [Entry.file "m.java" (some "b")]

/-- A queue whose last entry (popped first) has a path outside the project
root, followed by an in-root file whose content matches `rLitB`. -/
def cqueue : List FileJob :=
  [{ path := ["d", "g.java"], content := some "b" },
   { path := ["x", "f.java"], content := some "b" }]

/-! ## Supporting lemmas -/

theorem seqOut_panicked (a b : FileOut) : (seqOut a b).panicked = (a.panicked || b.panicked) := by
  unfold seqOut
  by_cases h : a.panicked <;> simp [h]

theorem mem_seqOut {v : Vulnerability} {a b : FileOut} (h : v ∈ (seqOut a b).vulns) :
    v ∈ a.vulns ∨ v ∈ b.vulns := by
  unfold seqOut at h
  split at h
  · exact Or.inl h
  · simpa using (List.mem_append.mp h)

theorem glfGo_eq (index : Nat) :
    ∀ (cs : List Char) (i line : Nat), i ≤ index →
      glfGo index i line cs = line + (cs.take (index - i)).count '\n' := by
  intro cs
  induction cs with
  | nil => intro i line _; simp [glfGo]
  | cons c rest ih =>
    intro i line h
    by_cases hi : i = index
    · subst hi; simp [glfGo]
    · have hlt : i < index := lt_of_le_of_ne h hi
      have h1 : index - i = (index - (i + 1)) + 1 := by omega
      rw [glfGo, if_neg hi, ih (i + 1) _ (by omega), h1, List.take_succ_cons,
        List.count_cons]
      by_cases hc : c = '\n'
      · simp [hc]
        try omega
      · simp [hc]
        try omega

theorem get_line_for_eq (index : Nat) (text : String) :
    get_line_for index text = (text.toList.take index).count '\n' := by
  unfold get_line_for
  rw [glfGo_eq index text.toList 0 0 (Nat.zero_le _)]
  simp

theorem count_take_mono (cs : List Char) (a : Char) {s e : Nat} (h : s ≤ e) :
    (cs.take s).count a ≤ (cs.take e).count a := by
  have heq : cs.take s = (cs.take e).take s := by
    rw [List.take_take, Nat.min_eq_left h]
  rw [heq]
  exact ((cs.take e).take_sublist s).count_le a

theorem stripPre_append (d p : List String) : stripPre d (d ++ p) = some p := by
  induction d with
  | nil => simp [stripPre]
  | cons a pr ih => simpa [stripPre]

/-! Step equations for the span loop, with the case conditions as
hypotheses (the definitions are compiled by well-founded recursion over the
nested filesystem type elsewhere, but these loops are plain structural
recursions; the equations keep later proofs readable). -/

theorem emit_secondary_cons_none {rule : Rule} {path dist : List String} {code : String}
    {s e : Nat} {rest : List (Nat × Nat)} (hst : stripPre dist path = none) :
    emit_secondary rule path dist code ((s, e) :: rest) =
      { vulns := [], warns := 0, panicked := true } := by
  rw [emit_secondary]
  simp only [hst]

theorem emit_secondary_cons_some {rule : Rule} {path dist : List String} {code : String}
    {s e : Nat} {rest : List (Nat × Nat)} {rel : List String}
    (hst : stripPre dist path = some rel) :
    emit_secondary rule path dist code ((s, e) :: rest) =
      seqOut { vulns := [mk_vuln rule rel code s e], warns := 0, panicked := false }
        (emit_secondary rule path dist code rest) := by
  rw [emit_secondary]
  simp only [hst]

theorem process_spans_cons_wl {rnew : String → Option Regex} {rule : Rule}
    {path dist : List String} {code : String} {s e : Nat} {rest : List (Nat × Nat)}
    (hwl : (rule.whitelist.any fun w => w.is_match (sliceStr code s e)) = true) :
    process_spans rnew rule path dist code ((s, e) :: rest) =
      process_spans rnew rule path dist code rest := by
  rw [process_spans, if_pos hwl]

theorem process_spans_cons_direct_panic {rnew : String → Option Regex} {rule : Rule}
    {path dist : List String} {code : String} {s e : Nat} {rest : List (Nat × Nat)}
    (hwl : (rule.whitelist.any fun w => w.is_match (sliceStr code s e)) = false)
    (hfc : rule.forward_check = none) (hst : stripPre dist path = none) :
    process_spans rnew rule path dist code ((s, e) :: rest) =
      { vulns := [], warns := 0, panicked := true } := by
  rw [process_spans, if_neg (by simp [hwl])]
  simp only [hfc, hst]

theorem process_spans_cons_direct {rnew : String → Option Regex} {rule : Rule}
    {path dist : List String} {code : String} {s e : Nat} {rest : List (Nat × Nat)}
    {rel : List String}
    (hwl : (rule.whitelist.any fun w => w.is_match (sliceStr code s e)) = false)
    (hfc : rule.forward_check = none) (hst : stripPre dist path = some rel) :
    process_spans rnew rule path dist code ((s, e) :: rest) =
      seqOut { vulns := [mk_vuln rule rel code s e], warns := 0, panicked := false }
        (process_spans rnew rule path dist code rest) := by
  rw [process_spans, if_neg (by simp [hwl])]
  simp only [hfc, hst]

theorem process_spans_cons_nocaps {rnew : String → Option Regex} {rule : Rule}
    {path dist : List String} {code : String} {s e : Nat} {rest : List (Nat × Nat)}
    {check : String}
    (hwl : (rule.whitelist.any fun w => w.is_match (sliceStr code s e)) = false)
    (hfc : rule.forward_check = some check)
    (hcap : rule.regex.captures (sliceStr code s e) = none) :
    process_spans rnew rule path dist code ((s, e) :: rest) =
      { vulns := [], warns := 0, panicked := true } := by
  rw [process_spans, if_neg (by simp [hwl])]
  simp only [hfc, hcap]

theorem process_spans_cons_badre {rnew : String → Option Regex} {rule : Rule}
    {path dist : List String} {code : String} {s e : Nat} {rest : List (Nat × Nat)}
    {check : String} {caps : String → Option String}
    (hwl : (rule.whitelist.any fun w => w.is_match (sliceStr code s e)) = false)
    (hfc : rule.forward_check = some check)
    (hcap : rule.regex.captures (sliceStr code s e) = some caps)
    (hrw : rnew (subst_check check caps) = none) :
    process_spans rnew rule path dist code ((s, e) :: rest) =
      { vulns := [], warns := 1, panicked := false } := by
  rw [process_spans, if_neg (by simp [hwl])]
  simp only [hfc, hcap, hrw]

theorem process_spans_cons_fc {rnew : String → Option Regex} {rule : Rule}
    {path dist : List String} {code : String} {s e : Nat} {rest : List (Nat × Nat)}
    {check : String} {caps : String → Option String} {re2 : Regex}
    (hwl : (rule.whitelist.any fun w => w.is_match (sliceStr code s e)) = false)
    (hfc : rule.forward_check = some check)
    (hcap : rule.regex.captures (sliceStr code s e) = some caps)
    (hrw : rnew (subst_check check caps) = some re2) :
    process_spans rnew rule path dist code ((s, e) :: rest) =
      seqOut (emit_secondary rule path dist code (re2.find_iter code))
        (process_spans rnew rule path dist code rest) := by
  rw [process_spans, if_neg (by simp [hwl])]
  simp only [hfc, hcap, hrw]

/-- Every finding of `emit_secondary` comes from one of its spans, with the
stripped relative path. -/
theorem mem_emit_secondary {rule : Rule} {path dist : List String} {code : String}
    {L : List (Nat × Nat)} {v : Vulnerability}
    (h : v ∈ (emit_secondary rule path dist code L).vulns) :
    ∃ rel, stripPre dist path = some rel ∧
      ∃ s e, (s, e) ∈ L ∧ v = mk_vuln rule rel code s e := by
  induction L with
  | nil => simp [emit_secondary] at h
  | cons se rest ih =>
    obtain ⟨s, e⟩ := se
    cases hst : stripPre dist path with
    | none => rw [emit_secondary_cons_none hst] at h; simp at h
    | some rel =>
      rw [emit_secondary_cons_some hst] at h
      rcases mem_seqOut h with h1 | h2
      · exact ⟨rel, rfl, s, e, by simp, by simpa using h1⟩
      · obtain ⟨rel', hrel', s', e', hmem, hv⟩ := ih h2
        exact ⟨rel', by rw [← hst]; exact hrel', s', e',
          List.mem_cons_of_mem _ hmem, hv⟩

/-- Every finding of the span loop is a `mk_vuln` for the stripped path,
built either from a primary span of the list or from a span of a compiled
secondary regex over the whole text. -/
theorem mem_process_spans {rnew : String → Option Regex} {rule : Rule}
    {path dist : List String} {code : String} {L : List (Nat × Nat)} {v : Vulnerability}
    (h : v ∈ (process_spans rnew rule path dist code L).vulns) :
    ∃ rel, stripPre dist path = some rel ∧
      ∃ s e, v = mk_vuln rule rel code s e ∧
        ((s, e) ∈ L ∨ ∃ pat re2, rnew pat = some re2 ∧ (s, e) ∈ re2.find_iter code) := by
  induction L with
  | nil => simp [process_spans] at h
  | cons se rest ih =>
    obtain ⟨s, e⟩ := se
    by_cases hwl : (rule.whitelist.any fun w => w.is_match (sliceStr code s e)) = true
    · rw [process_spans_cons_wl hwl] at h
      obtain ⟨rel, hrel, s', e', hv, hor⟩ := ih h
      exact ⟨rel, hrel, s', e', hv,
        hor.imp (fun h1 => List.mem_cons_of_mem _ h1) id⟩
    · replace hwl := Bool.eq_false_iff.mpr hwl
      cases hfc : rule.forward_check with
      | none =>
        cases hst : stripPre dist path with
        | none => rw [process_spans_cons_direct_panic hwl hfc hst] at h; simp at h
        | some rel =>
          rw [process_spans_cons_direct hwl hfc hst] at h
          rcases mem_seqOut h with h1 | h2
          · exact ⟨rel, rfl, s, e, by simpa using h1, Or.inl (by simp)⟩
          · obtain ⟨rel', hrel', s', e', hv, hor⟩ := ih h2
            exact ⟨rel', by rw [← hst]; exact hrel', s', e', hv,
              hor.imp (fun h1 => List.mem_cons_of_mem _ h1) id⟩
      | some check =>
        cases hcap : rule.regex.captures (sliceStr code s e) with
        | none => rw [process_spans_cons_nocaps hwl hfc hcap] at h; simp at h
        | some caps =>
          cases hrw : rnew (subst_check check caps) with
          | none => rw [process_spans_cons_badre hwl hfc hcap hrw] at h; simp at h
          | some re2 =>
            rw [process_spans_cons_fc hwl hfc hcap hrw] at h
            rcases mem_seqOut h with h1 | h2
            · obtain ⟨rel, hrel, s', e', hmem, hv⟩ := mem_emit_secondary h1
              exact ⟨rel, hrel, s', e', hv, Or.inr ⟨_, re2, hrw, hmem⟩⟩
            · obtain ⟨rel', hrel', s', e', hv, hor⟩ := ih h2
              exact ⟨rel', hrel', s', e', hv,
                hor.imp (fun h1 => List.mem_cons_of_mem _ h1) id⟩

/-- If the span loop produced any finding, some span of the list passed the
whitelist filter. -/
theorem process_spans_some_pass {rnew : String → Option Regex} {rule : Rule}
    {path dist : List String} {code : String} {L : List (Nat × Nat)}
    (h : (process_spans rnew rule path dist code L).vulns ≠ []) :
    ∃ s e, (s, e) ∈ L ∧ ∀ w ∈ rule.whitelist, w.is_match (sliceStr code s e) = false := by
  induction L with
  | nil => simp [process_spans] at h
  | cons se rest ih =>
    obtain ⟨s, e⟩ := se
    by_cases hwl : (rule.whitelist.any fun w => w.is_match (sliceStr code s e)) = true
    · rw [process_spans_cons_wl hwl] at h
      obtain ⟨s', e', hmem, hpass⟩ := ih h
      exact ⟨s', e', List.mem_cons_of_mem _ hmem, hpass⟩
    · refine ⟨s, e, by simp, ?_⟩
      intro w hw
      by_contra hne
      exact hwl (List.any_eq_true.mpr ⟨w, hw, by simpa using hne⟩)

/-- Findings of `process_rule` require both gates to pass and come from the
span loop over the primary matches. -/
theorem mem_process_rule {rnew : String → Option Regex} {rule : Rule}
    {manifest : Option Manifest} {path dist : List String} {code : String} {v : Vulnerability}
    (h : v ∈ (process_rule rnew rule manifest path dist code).vulns) :
    sdkSkip rule manifest = false ∧ permSkip rule manifest = false ∧
      v ∈ (process_spans rnew rule path dist code (rule.regex.find_iter code)).vulns := by
  unfold process_rule at h
  by_cases h1 : sdkSkip rule manifest = true
  · rw [if_pos h1] at h; simp at h
  · rw [if_neg h1] at h
    by_cases h2 : permSkip rule manifest = true
    · rw [if_pos h2] at h; simp at h
    · rw [if_neg h2] at h
      exact ⟨Bool.eq_false_iff.mpr h1, Bool.eq_false_iff.mpr h2, h⟩

/-- Every finding of `analyze_file` belongs to some rule of the catalog. -/
theorem mem_analyze_file {rnew : String → Option Regex} {path dist : List String}
    {rules : List Rule} {manifest : Option Manifest} {code : String} {v : Vulnerability}
    (h : v ∈ (analyze_file rnew path dist rules manifest code).vulns) :
    ∃ r ∈ rules, v ∈ (process_rule rnew r manifest path dist code).vulns := by
  induction rules with
  | nil => simp [analyze_file] at h
  | cons r rs ih =>
    rw [analyze_file] at h
    rcases mem_seqOut h with h1 | h2
    · exact ⟨r, by simp, h1⟩
    · obtain ⟨r', hmem, hv⟩ := ih h2
      exact ⟨r', List.mem_cons_of_mem _ hmem, hv⟩

/-- Every finding of `analyze_file` carries the stripped project-relative
path; in particular the strip must succeed for a finding to exist. -/
theorem analyze_file_rel {rnew : String → Option Regex} {path dist : List String}
    {rules : List Rule} {manifest : Option Manifest} {code : String} {v : Vulnerability}
    (h : v ∈ (analyze_file rnew path dist rules manifest code).vulns) :
    ∃ rel, stripPre dist path = some rel ∧ v.file_path = rel := by
  obtain ⟨r, _, hv⟩ := mem_analyze_file h
  obtain ⟨_, _, hsp⟩ := mem_process_rule hv
  obtain ⟨rel, hrel, s, e, hveq, _⟩ := mem_process_spans hsp
  exact ⟨rel, hrel, by rw [hveq]; rfl⟩

/-- Every finding pushed by a worker comes from the analysis of one of its
queued files. -/
theorem mem_workerGo {rnew : String → Option Regex} {dist : List String}
    {rules : List Rule} {manifest : Option Manifest} {jobs : List FileJob} {v : Vulnerability}
    (h : v ∈ (workerGo rnew dist rules manifest jobs).vulns) :
    ∃ j ∈ jobs, ∃ code, j.content = some code ∧
      v ∈ (analyze_file rnew j.path dist rules manifest code).vulns := by
  induction jobs with
  | nil => simp [workerGo] at h
  | cons j rest ih =>
    rw [workerGo] at h
    cases hc : j.content with
    | none =>
      rw [hc] at h
      rcases mem_seqOut h with h1 | h2
      · simp at h1
      · obtain ⟨j', hmem, hrest⟩ := ih h2
        exact ⟨j', List.mem_cons_of_mem _ hmem, hrest⟩
    | some code =>
      rw [hc] at h
      rcases mem_seqOut h with h1 | h2
      · exact ⟨j, by simp, code, hc, h1⟩
      · obtain ⟨j', hmem, hrest⟩ := ih h2
        exact ⟨j', List.mem_cons_of_mem _ hmem, hrest⟩

/-- When the strip succeeds, the secondary emission is exactly one finding
per span, in order, with no warning and no panic. -/
theorem emit_secondary_eq_map {rule : Rule} {path dist : List String} {code : String}
    {rel : List String} (hst : stripPre dist path = some rel) :
    ∀ L : List (Nat × Nat),
      emit_secondary rule path dist code L =
        { vulns := L.map (fun se => mk_vuln rule rel code se.1 se.2),
          warns := 0, panicked := false } := by
  intro L
  induction L with
  | nil => simp [emit_secondary]
  | cons se rest ih =>
    obtain ⟨s, e⟩ := se
    rw [emit_secondary_cons_some hst, ih]
    simp [seqOut]

/-- When the strip succeeds and `captures` succeeds on every span of the
list, the span loop cannot panic. -/
theorem process_spans_no_panic {rnew : String → Option Regex} {rule : Rule}
    {path dist : List String} {code : String} {rel : List String}
    (hst : stripPre dist path = some rel) :
    ∀ L : List (Nat × Nat),
      (∀ se ∈ L, (rule.regex.captures (sliceStr code se.1 se.2)).isSome) →
      (process_spans rnew rule path dist code L).panicked = false := by
  intro L
  induction L with
  | nil => intro _; simp [process_spans]
  | cons se rest ih =>
    intro hcaps
    obtain ⟨s, e⟩ := se
    have hrest : ∀ se ∈ rest, (rule.regex.captures (sliceStr code se.1 se.2)).isSome :=
      fun se hse => hcaps se (List.mem_cons_of_mem _ hse)
    by_cases hwl : (rule.whitelist.any fun w => w.is_match (sliceStr code s e)) = true
    · rw [process_spans_cons_wl hwl]
      exact ih hrest
    · replace hwl := Bool.eq_false_iff.mpr hwl
      cases hfc : rule.forward_check with
      | none =>
        rw [process_spans_cons_direct hwl hfc hst, seqOut_panicked]
        simp [ih hrest]
      | some check =>
        cases hcap : rule.regex.captures (sliceStr code s e) with
        | none =>
          have := hcaps (s, e) (by simp)
          rw [hcap] at this
          simp at this
        | some caps =>
          cases hrw : rnew (subst_check check caps) with
          | none => rw [process_spans_cons_badre hwl hfc hcap hrw]
          | some re2 =>
            rw [process_spans_cons_fc hwl hfc hcap hrw, seqOut_panicked,
              emit_secondary_eq_map hst]
            simp [ih hrest]

/-! ## Walker lemmas -/

/-- A prefix of a list extended by one element is a prefix of the list or
the whole extension. -/
theorem pre_concat {α : Type} {l₁ l₂ : List α} {a : α} (h : l₁ <+: l₂ ++ [a]) :
    l₁ <+: l₂ ∨ l₁ = l₂ ++ [a] := by
  obtain ⟨t, ht⟩ := h
  rcases List.eq_nil_or_concat t with rfl | ⟨t', b, rfl⟩
  · right; simpa using ht
  · left
    rw [List.concat_eq_append, ← List.append_assoc] at ht
    obtain ⟨h1, _⟩ := List.append_inj' ht (by simp)
    exact ⟨t', h1⟩

/-- The walker only appends to the accumulator. -/
theorem walk_entries_mono : ∀ (r : List String) (vec : List FileRec) (l : List Entry),
    vec <+: (walk_entries r vec l).1 := by
  intro r vec l
  induction r, vec, l using walk_entries.induct with
  | case1 r vec => simp [walk_entries]
  | case2 r vec rest => simp [walk_entries]
  | case3 r vec n c rest ih =>
    rw [walk_entries]
    by_cases hk : keep_file n = true
    · simp only [hk, if_true] at ih ⊢
      exact (List.prefix_append vec _).trans (by simpa using ih)
    · simp only [hk, if_false] at ih ⊢
      simpa using ih
  | case4 r vec sub rest ih =>
    rw [walk_entries.eq_def]
    simpa using ih
  | case5 r vec n sub rest hn hex ih =>
    rw [walk_entries.eq_def]
    simp only [hn, hex, if_false, if_true]
    exact ih
  | case6 r vec n rest hn hex =>
    rw [walk_entries.eq_def]
    simp [hn, hex]
  | case7 r vec n rest hn hex l vec' w hsub vec'' w' ok hrest ih1 ih2 =>
    rw [walk_entries.eq_def]
    simp only [hn, hex, if_false, hsub, hrest]
    rw [hsub] at ih1
    rw [hrest] at ih2
    exact List.IsPrefix.trans (by simpa using ih1) (by simpa using ih2)
  | case8 r vec n rest hn hex l vec' w hsub ih1 =>
    rw [walk_entries.eq_def]
    simp only [hn, hex, if_false, hsub]
    rw [hsub] at ih1
    simpa using ih1

theorem keep_file_good {n : String} (h : keep_file n = true) : goodName n := by
  unfold keep_file at h
  cases hext : extOf n with
  | none => rw [hext] at h; simp at h
  | some ext =>
    rw [hext] at h
    simp only [Bool.and_eq_true, Bool.not_eq_true', decide_eq_true_eq,
      Bool.or_eq_true] at h
    refine ⟨h.1.1.1, h.1.1.2, h.1.2, ?_⟩
    rcases h.2 with h2 | h2 <;> [left; right] <;> rw [hext, h2]

theorem keep_file_ne {n : String} (h : keep_file n = true) :
    n ≠ "android" ∧ n ≠ "gms" ∧ n ≠ "smali" ∧ n ≠ "original" := by
  obtain ⟨_, _, _, hx⟩ := keep_file_good h
  refine ⟨?_, ?_, ?_, ?_⟩ <;> rintro rfl <;>
    (rcases hx with h2 | h2 <;> exact absurd h2 (by decide))

theorem goodPath_concat {r : List String} {n : String} (hpre : preDir r)
    (hk : keep_file n = true) : goodPath (r ++ [n]) := by
  obtain ⟨h1, h2, h3, h4⟩ := hpre
  obtain ⟨hn1, hn2, hn3, hn4⟩ := keep_file_ne hk
  refine ⟨?_, ?_, ?_, ?_, n, ?_, keep_file_good hk⟩
  · intro h
    rcases pre_concat h with h | h
    · exact h1 h
    · exact hn1 (by simpa using congrArg List.getLast? h.symm)
  · intro h
    rcases pre_concat h with h | h
    · exact h2 h
    · exact hn2 (by simpa using congrArg List.getLast? h.symm)
  · intro h
    rcases pre_concat h with h | h
    · exact h3 h
    · exact hn3 (by simpa using congrArg List.getLast? h.symm)
  · intro h
    rcases List.mem_append.mp h with h | h
    · exact h4 h
    · exact hn4 (by simpa using h : "original" = n).symm
  · simp

theorem preDir_concat {r : List String} {n : String} (hpre : preDir r)
    (hn : n ≠ "original") (hex : ¬excluded_rel (r ++ [n]) = true) :
    preDir (r ++ [n]) := by
  obtain ⟨h1, h2, h3, h4⟩ := hpre
  refine ⟨?_, ?_, ?_, ?_⟩
  · intro h
    rcases pre_concat h with h | h
    · exact h1 h
    · exact hex (by simp [excluded_rel, h.symm])
  · intro h
    rcases pre_concat h with h | h
    · exact h2 h
    · exact hex (by simp [excluded_rel, h.symm])
  · intro h
    rcases pre_concat h with h | h
    · exact h3 h
    · exact hex (by simp [excluded_rel, h.symm])
  · intro h
    rcases List.mem_append.mp h with h | h
    · exact h4 h
    · exact hn (by simpa using h : "original" = n).symm

/-- Every file collected by the walker under a well-placed directory has a
good path. -/
theorem walk_entries_good :
    ∀ (r : List String) (vec : List FileRec) (l : List Entry),
      preDir r → (∀ q ∈ vec, goodPath q.1) →
      ∀ q ∈ (walk_entries r vec l).1, goodPath q.1 := by
  intro r vec l
  induction r, vec, l using walk_entries.induct with
  | case1 r vec => intro _ hvec; simpa [walk_entries] using hvec
  | case2 r vec rest => intro _ hvec; simpa [walk_entries] using hvec
  | case3 r vec n c rest ih =>
    intro hpre hvec
    rw [walk_entries]
    by_cases hk : keep_file n = true
    · simp only [hk, if_true] at ih ⊢
      refine ih hpre ?_
      intro q hq
      rcases List.mem_append.mp hq with h | h
      · exact hvec q h
      · simp at h
        rw [h]
        exact goodPath_concat hpre hk
    · simp only [hk, if_false] at ih ⊢
      exact ih hpre hvec
  | case4 r vec sub rest ih =>
    intro hpre hvec
    rw [walk_entries.eq_def]
    simpa using ih hpre hvec
  | case5 r vec n sub rest hn hex ih =>
    intro hpre hvec
    rw [walk_entries.eq_def]
    simp only [hn, hex, if_false, if_true]
    exact ih hpre hvec
  | case6 r vec n rest hn hex =>
    intro hpre hvec
    rw [walk_entries.eq_def]
    simp only [hn, hex, if_false]
    simpa using hvec
  | case7 r vec n rest hn hex l vec' w hsub vec'' w' ok hrest ih1 ih2 =>
    intro hpre hvec
    rw [walk_entries.eq_def]
    simp only [hn, hex, if_false, hsub, hrest]
    have hsubgood : ∀ q ∈ vec', goodPath q.1 := by
      have := ih1 (preDir_concat hpre hn hex) hvec
      rw [hsub] at this
      simpa using this
    have := ih2 hpre hsubgood
    rw [hrest] at this
    simpa using this
  | case8 r vec n rest hn hex l vec' w hsub ih1 =>
    intro hpre hvec
    rw [walk_entries.eq_def]
    simp only [hn, hex, if_false, hsub]
    have := ih1 (preDir_concat hpre hn hex) hvec
    rw [hsub] at this
    simpa using this

theorem preDir_nil : preDir [] := by
  refine ⟨?_, ?_, ?_, by simp⟩ <;> (intro h; have := h.length_le; simp at this)

/-- Every file collected from the project root has a good path. -/
theorem add_files_good (root : Option (List Entry)) :
    ∀ q ∈ (add_files_to_vec [] [] root).1, goodPath q.1 := by
  unfold add_files_to_vec
  rw [if_neg (by simp [excluded_rel])]
  cases root with
  | none => simp
  | some l => exact walk_entries_good [] [] l preDir_nil (by simp)

/-! ## Claim theorems -/

/-- C1: evaluation of the loader at the failing input.  The claim (and the
loader's own diagnostic, "You must have a capture group named fc1 to use
the capture fc2") require a rule whose regex declares `fc1` and `fc2` with
both placeholders in the template to load; the code rejects it whenever
`fc1` is declared before `fc2`, because the second `find` runs on the
capture-names iterator already advanced past `fc1`.  Swapping the capture
declarations makes the same rule load. -/
theorem claim1_code_eval :
    load_rules wEngine ppAll (Value.VArr [fcBugObj]) = Except.error Error.ParseError ∧
    loadOk (load_rules wEngine ppAll (Value.VArr [fcOkObj])) = true :=
  ⟨rfl, rfl⟩

/-- C2 counterexample: a five-key rule object containing the unknown
top-level key `bogus` loads successfully, contradicting the claim that any
unknown key makes the loader fail. -/
theorem claim2_counterexample :
    loadOk (load_rules wEngine ppAll (Value.VArr [bogusObj])) = true := rfl

/-- Auxiliary for C2: a rule object with an out-of-bounds key count fails
the whole load. -/
theorem loadRuleList_key_count {rnew : String → Option Regex}
    {pp : String → Option Permission} {rules : List Value} {kvs : List (String × Value)}
    (hmem : Value.VObj kvs ∈ rules) (hlen : kvs.length < 4 ∨ kvs.length > 8) :
    loadRuleList rnew pp rules = Except.error Error.ParseError := by
  induction rules with
  | nil => simp at hmem
  | cons r rest ih =>
    rw [loadRuleList]
    rcases List.mem_cons.mp hmem with rfl | hmem'
    · have hbad : loadRule rnew pp (Value.VObj kvs) = Except.error Error.ParseError := by
        rw [show loadRule rnew pp (Value.VObj kvs) =
            (if kvs.length < 4 ∨ kvs.length > 8 then Except.error Error.ParseError
             else loadRuleFields rnew pp kvs) from rfl, if_pos hlen]
      rw [hbad]
      rfl
    · cases hload : loadRule rnew pp r with
      | error e => cases e; rfl
      | ok rl =>
        rw [ih hmem']
        rfl

/-- C2 amended: unknown keys are rejected only through the 4-8 key-count
bound.  A rule object with fewer than 4 or more than 8 keys (in particular
any object holding all eight schema keys plus an unknown one) fails the
load with ParseError; an unknown key inside a 4-8-key object does not by
itself cause a failure (see the counterexample). -/
theorem claim2_amended (rnew : String → Option Regex) (pp : String → Option Permission)
    (rules : List Value) (kvs : List (String × Value))
    (hmem : Value.VObj kvs ∈ rules) (hlen : kvs.length < 4 ∨ kvs.length > 8) :
    load_rules rnew pp (Value.VArr rules) = Except.error Error.ParseError :=
  loadRuleList_key_count hmem hlen

/-- C2 witness: a three-key object fails the load. -/
theorem claim2_witness :
    load_rules wEngine ppAll (Value.VArr [threeKeyObj]) = Except.error Error.ParseError :=
  claim2_amended wEngine ppAll [threeKeyObj]
    [("criticity", Value.VStr "warning"), ("description", Value.VStr "d"),
      ("label", Value.VStr "l")]
    (by simp [threeKeyObj]) (Or.inl (by decide))

/-- C4 counterexample: with an entry error inside the first directory and a
scannable file inside a sibling directory listed after it, the walk stops
at the error — one warning, error result, and no file collected, so the
sibling's file is never scanned.  The claim says the walker would continue
with the remaining siblings. -/
theorem claim4_counterexample : add_files_to_vec [] [] badTree = ([], 1, false) := by
  simp only [add_files_to_vec, badTree, walk_entries]
  decide

/-- C4 amended: a failing directory entry emits one warning and makes the
walk return an error immediately, enumerating nothing further (the
accumulated file list is returned unchanged); in general the walker only
appends, so files collected before any failure are kept and scanned. -/
theorem claim4_amended :
    (∀ (r : List String) (vec : List FileRec) (rest : List Entry),
        walk_entries r vec (Entry.err :: rest) = (vec, 1, false)) ∧
    (∀ (r : List String) (vec : List FileRec) (l : List Entry),
        vec <+: (walk_entries r vec l).1) :=
  ⟨fun r vec rest => by rw [walk_entries], walk_entries_mono⟩

/-- C3 counterexample: the popped queue entry has a path outside the
project root and a primary match, so the worker panics on the
`strip_prefix` unwrap — no warning is printed, no finding is produced, the
worker terminates, and the other queued file (in root, with a match) is
never analyzed.  The claim says the engine warns and continues. -/
theorem claim3_counterexample :
    run_queue rnewLit ["d"] [rLitB] none cqueue =
      { vulns := [], warns := 0, panicked := true } := rfl

/-- C3 amended: for a popped file whose path cannot be stripped of the
project-root prefix, `analyze_file` produces no finding; if no emission
point is reached the worker continues with the rest of the queue, but if
one is reached the worker panics — the panic terminates the worker and the
rest of the queue is dropped (it is not a warning).  In the integrated
engine every queued path lies under the root, so the strip never fails
there. -/
theorem claim3_amended (rnew : String → Option Regex) (path dist : List String)
    (rules : List Rule) (manifest : Option Manifest) (code : String) (rest : List FileJob)
    (h : stripPre dist path = none) :
    (analyze_file rnew path dist rules manifest code).vulns = [] ∧
    ((analyze_file rnew path dist rules manifest code).panicked = true →
      workerGo rnew dist rules manifest ({ path := path, content := some code } :: rest) =
        analyze_file rnew path dist rules manifest code) ∧
    ((analyze_file rnew path dist rules manifest code).panicked = false →
      workerGo rnew dist rules manifest ({ path := path, content := some code } :: rest) =
        seqOut (analyze_file rnew path dist rules manifest code)
          (workerGo rnew dist rules manifest rest)) := by
  refine ⟨?_, ?_, ?_⟩
  · cases hv : (analyze_file rnew path dist rules manifest code).vulns with
    | nil => rfl
    | cons v vs =>
      exfalso
      have hvm : v ∈ (analyze_file rnew path dist rules manifest code).vulns := by
        rw [hv]; simp
      obtain ⟨rel, hrel, _⟩ := analyze_file_rel hvm
      rw [h] at hrel
      cases hrel
  · intro hp
    have hw : workerGo rnew dist rules manifest ({ path := path, content := some code } :: rest) =
        seqOut (analyze_file rnew path dist rules manifest code)
          (workerGo rnew dist rules manifest rest) := rfl
    rw [hw]
    unfold seqOut
    rw [if_pos hp]
  · intro _
    rfl

/-- C3 witness: at a concrete out-of-root path the amended claim's three
parts hold. -/
theorem claim3_witness :
    (analyze_file rnewLit ["x", "f.java"] ["d"] [rLitB] none "b").vulns = [] ∧
    ((analyze_file rnewLit ["x", "f.java"] ["d"] [rLitB] none "b").panicked = true →
      workerGo rnewLit ["d"] [rLitB] none ({ path := ["x", "f.java"], content := some "b" } :: []) =
        analyze_file rnewLit ["x", "f.java"] ["d"] [rLitB] none "b") ∧
    ((analyze_file rnewLit ["x", "f.java"] ["d"] [rLitB] none "b").panicked = false →
      workerGo rnewLit ["d"] [rLitB] none ({ path := ["x", "f.java"], content := some "b" } :: []) =
        seqOut (analyze_file rnewLit ["x", "f.java"] ["d"] [rLitB] none "b")
          (workerGo rnewLit ["d"] [rLitB] none [])) :=
  claim3_amended rnewLit ["x", "f.java"] ["d"] [rLitB] none "b" [] rfl

/-- C5: a finding of a (file, rule) evaluation requires the SDK gate to
pass (no max_sdk, or no manifest, or not max_sdk < min_sdk), the
permission gate to pass (no permissions required, or a manifest holding
every one; with no manifest the permission list must be empty), and a
primary-regex match whose matched substring no whitelist regex matches. -/
theorem claim5_gates {rnew : String → Option Regex} {rule : Rule}
    {manifest : Option Manifest} {path dist : List String} {code : String} {v : Vulnerability}
    (h : v ∈ (process_rule rnew rule manifest path dist code).vulns) :
    (rule.max_sdk = none ∨ manifest = none ∨
      ∃ ms m, rule.max_sdk = some ms ∧ manifest = some m ∧ ¬ms < m.min_sdk) ∧
    (rule.permissions = [] ∨ ∃ m, manifest = some m ∧
      ∀ p ∈ rule.permissions, m.needsPermission p = true) ∧
    (manifest = none → rule.permissions = []) ∧
    (∃ s e, (s, e) ∈ rule.regex.find_iter code ∧
      ∀ w ∈ rule.whitelist, w.is_match (sliceStr code s e) = false) := by
  obtain ⟨hsdk, hperm, hsp⟩ := mem_process_rule h
  refine ⟨?_, ?_, ?_, ?_⟩
  · cases hm : manifest with
    | none => exact Or.inr (Or.inl rfl)
    | some m =>
      cases hms : rule.max_sdk with
      | none => exact Or.inl rfl
      | some ms =>
        refine Or.inr (Or.inr ⟨ms, m, rfl, rfl, ?_⟩)
        unfold sdkSkip at hsdk
        rw [hm, hms] at hsdk
        simpa using hsdk
  · cases hm : manifest with
    | none =>
      left
      rw [hm] at hperm
      unfold permSkip at hperm
      rcases hp : rule.permissions with _ | ⟨p, ps⟩
      · rfl
      · rw [hp] at hperm
        simp at hperm
    | some m =>
      refine Or.inr ⟨m, rfl, ?_⟩
      intro p hp
      rw [hm] at hperm
      unfold permSkip at hperm
      have := List.any_eq_false.mp hperm p hp
      simpa using this
  · intro hm
    rw [hm] at hperm
    unfold permSkip at hperm
    rcases hp : rule.permissions with _ | ⟨p, ps⟩
    · rfl
    · rw [hp] at hperm
      simp at hperm
  · exact process_spans_some_pass (List.ne_nil_of_mem hsp)

/-- C5 witness: a concrete gate-free rule emits a finding, and the
conditions hold at that finding. -/
theorem claim5_witness :
    (rLitB.max_sdk = none ∨ (none : Option Manifest) = none ∨
      ∃ ms m, rLitB.max_sdk = some ms ∧ (none : Option Manifest) = some m ∧ ¬ms < m.min_sdk) ∧
    (rLitB.permissions = [] ∨ ∃ m, (none : Option Manifest) = some m ∧
      ∀ p ∈ rLitB.permissions, m.needsPermission p = true) ∧
    ((none : Option Manifest) = none → rLitB.permissions = []) ∧
    (∃ s e, (s, e) ∈ rLitB.regex.find_iter "ab" ∧
      ∀ w ∈ rLitB.whitelist, w.is_match (sliceStr "ab" s e) = false) :=
  claim5_gates (show mk_vuln rLitB ["f.java"] "ab" 1 2 ∈
    (process_rule rnewLit rLitB none ["d", "f.java"] ["d"] "ab").vulns from
    List.mem_singleton.mpr rfl)

/-- C6: with a forward check, for a non-whitelisted primary match with
successful capture extraction: (a) absent captures leave the placeholders
unsubstituted in the secondary pattern; (b) if the secondary pattern does
not compile, a warning is printed and the remainder of this rule's scan of
the file is abandoned while other rules still produce their findings; (c)
if it compiles, exactly one finding is emitted per non-overlapping
secondary match over the entire file text — no whitelist is applied to the
secondary matches — and the span loop continues with the remaining primary
matches. -/
theorem claim6_forward {rnew : String → Option Regex} {rule : Rule}
    {manifest : Option Manifest} {path dist : List String} {code check : String}
    {caps : String → Option String} {s e : Nat} {rest : List (Nat × Nat)}
    (hfc : rule.forward_check = some check)
    (hwl : (rule.whitelist.any fun w => w.is_match (sliceStr code s e)) = false)
    (hcap : rule.regex.captures (sliceStr code s e) = some caps)
    (hsdk : sdkSkip rule manifest = false) (hperm : permSkip rule manifest = false)
    (hspans : rule.regex.find_iter code = (s, e) :: rest) :
    (caps "fc1" = none → caps "fc2" = none → subst_check check caps = check) ∧
    (rnew (subst_check check caps) = none →
      process_rule rnew rule manifest path dist code =
        { vulns := [], warns := 1, panicked := false } ∧
      ∀ others, (analyze_file rnew path dist (rule :: others) manifest code).vulns =
        (analyze_file rnew path dist others manifest code).vulns) ∧
    (∀ re2 rel, rnew (subst_check check caps) = some re2 → stripPre dist path = some rel →
      process_rule rnew rule manifest path dist code =
        seqOut { vulns := (re2.find_iter code).map (fun se => mk_vuln rule rel code se.1 se.2),
                 warns := 0, panicked := false }
          (process_spans rnew rule path dist code rest)) := by
  have hpr : process_rule rnew rule manifest path dist code =
      process_spans rnew rule path dist code ((s, e) :: rest) := by
    unfold process_rule
    rw [if_neg (by simp [hsdk]), if_neg (by simp [hperm]), hspans]
  refine ⟨?_, ?_, ?_⟩
  · intro h1 h2
    simp [subst_check, h1, h2]
  · intro hrw
    have hfail : process_rule rnew rule manifest path dist code =
        { vulns := [], warns := 1, panicked := false } := by
      rw [hpr, process_spans_cons_badre hwl hfc hcap hrw]
    refine ⟨hfail, ?_⟩
    intro others
    have hcons : analyze_file rnew path dist (rule :: others) manifest code =
        seqOut (process_rule rnew rule manifest path dist code)
          (analyze_file rnew path dist others manifest code) := rfl
    rw [hcons, hfail]
    unfold seqOut
    simp
  · intro re2 rel hrw hst
    rw [hpr, process_spans_cons_fc hwl hfc hcap hrw, emit_secondary_eq_map hst]

/-- C6 witness: concrete rule matching `a` in the text `ab` with template
`b`; no captures are present, the template compiles, and exactly the
secondary matches of `b` over the whole text are emitted. -/
theorem claim6_witness :
    ((fun _ => none : String → Option String) "fc1" = none →
      (fun _ => none : String → Option String) "fc2" = none →
      subst_check "b" (fun _ => none) = "b") ∧
    (rnewLit (subst_check "b" (fun _ => none)) = none →
      process_rule rnewLit fcRule none ["d", "f.java"] ["d"] "ab" =
        { vulns := [], warns := 1, panicked := false } ∧
      ∀ others, (analyze_file rnewLit ["d", "f.java"] ["d"] (fcRule :: others) none "ab").vulns =
        (analyze_file rnewLit ["d", "f.java"] ["d"] others none "ab").vulns) ∧
    (∀ re2 rel, rnewLit (subst_check "b" (fun _ => none)) = some re2 →
      stripPre ["d"] ["d", "f.java"] = some rel →
      process_rule rnewLit fcRule none ["d", "f.java"] ["d"] "ab" =
        seqOut { vulns := (re2.find_iter "ab").map
                   (fun se => mk_vuln fcRule rel "ab" se.1 se.2),
                 warns := 0, panicked := false }
          (process_spans rnewLit fcRule ["d", "f.java"] ["d"] "ab" [])) :=
  @claim6_forward rnewLit fcRule none ["d", "f.java"] ["d"] "ab" "b" (fun _ => none) 0 1 []
    rfl rfl rfl rfl rfl rfl

/-- C7 counterexample: for `max_sdk` = 2^31 the loaded rule stores
-2147483648, not 2^31, and with a manifest whose minimum SDK is 1 the gate
skips the rule even though 2^31 < 1 is false — refuting exact-integer
semantics for large values. -/
theorem claim7_counterexample :
    load_rules wEngine ppAll (Value.VArr [sdkObj (2 ^ 31)]) = Except.ok [sdkRule (2 ^ 31)] ∧
    (sdkRule (2 ^ 31)).max_sdk = some (-2147483648 : Int) ∧
    ((2 ^ 31 : Int) ≠ -2147483648) ∧
    sdkSkip (sdkRule (2 ^ 31)) (some { min_sdk := 1, needsPermission := fun _ => true }) = true ∧
    ¬((2 ^ 31 : Int) < 1) := by
  refine ⟨rfl, by decide, by decide, rfl, by decide⟩

/-- C7 amended: a nonnegative integer `max_sdk` entry `m` is stored as the
64-to-32-bit two's-complement truncation of `m` — equal to `m` exactly
when `m < 2^31` — and the gate compares the stored value with the
manifest's minimum SDK. -/
theorem claim7_amended (m : Nat) (s : Int) :
    load_rules wEngine ppAll (Value.VArr [sdkObj m]) = Except.ok [sdkRule m] ∧
    (sdkRule m).max_sdk = some (asI32 m) ∧
    (m < 2 ^ 31 → asI32 m = (m : Int)) ∧
    sdkSkip (sdkRule m) (some { min_sdk := s, needsPermission := fun _ => true }) =
      decide (asI32 m < s) := by
  refine ⟨rfl, rfl, ?_, rfl⟩
  intro hm
  have hmod : m % 2 ^ 32 = m := Nat.mod_eq_of_lt (by omega)
  simp only [asI32, hmod]
  rw [if_pos (by omega)]

/-- C7 witness: at `m` = 5, `s` = 3 the amended statements hold. -/
theorem claim7_witness :
    load_rules wEngine ppAll (Value.VArr [sdkObj 5]) = Except.ok [sdkRule 5] ∧
    (sdkRule 5).max_sdk = some (asI32 5) ∧
    (5 < 2 ^ 31 → asI32 5 = (5 : Int)) ∧
    sdkSkip (sdkRule 5) (some { min_sdk := 3, needsPermission := fun _ => true }) =
      decide (asI32 5 < 3) :=
  claim7_amended 5 3

/-- C8: assuming the regex engine returns well-formed spans (start ≤ end,
as the regex crate guarantees), every finding's start_line is the number
of newline characters strictly before the match's start offset, its
end_line the number strictly before the end offset, and therefore
end_line ≥ start_line ≥ 0 (lines are naturals, so nonnegative). -/
theorem claim8_lines {rnew : String → Option Regex} {path dist : List String}
    {rules : List Rule} {manifest : Option Manifest} {code : String}
    (H1 : ∀ r ∈ rules, ∀ se ∈ r.regex.find_iter code, se.1 ≤ se.2)
    (H2 : ∀ pat re2, rnew pat = some re2 → ∀ se ∈ re2.find_iter code, se.1 ≤ se.2) :
    ∀ v ∈ (analyze_file rnew path dist rules manifest code).vulns,
      ∃ s e, s ≤ e ∧
        v.start_line = (code.toList.take s).count '\n' ∧
        v.end_line = (code.toList.take e).count '\n' ∧
        v.start_line ≤ v.end_line := by
  intro v hv
  obtain ⟨r, hr, hv1⟩ := mem_analyze_file hv
  obtain ⟨_, _, hsp⟩ := mem_process_rule hv1
  obtain ⟨rel, hrel, s, e, hveq, hor⟩ := mem_process_spans hsp
  have hse : s ≤ e := by
    rcases hor with hmem | ⟨pat, re2, hrw, hmem⟩
    · exact H1 r hr (s, e) hmem
    · exact H2 pat re2 hrw (s, e) hmem
  refine ⟨s, e, hse, ?_, ?_, ?_⟩
  · rw [hveq]
    exact get_line_for_eq s code
  · rw [hveq]
    exact get_line_for_eq e code
  · rw [hveq]
    show get_line_for s code ≤ get_line_for e code
    rw [get_line_for_eq, get_line_for_eq]
    exact count_take_mono code.toList '\n' hse

/-- Spans of the literal scanner are well-formed. -/
theorem litScanF_le (pat : List Char) :
    ∀ (fuel i : Nat) (cs : List Char) (se : Nat × Nat),
      se ∈ litScanF pat fuel i cs → se.1 ≤ se.2 := by
  intro fuel
  induction fuel with
  | zero => intro i cs se h; simp [litScanF] at h
  | succ n ih =>
    intro i cs se h
    rw [litScanF] at h
    by_cases he : cs.isEmpty = true
    · rw [if_pos he] at h; simp at h
    · rw [if_neg he] at h
      by_cases hp : pat.isPrefixOf cs = true
      · rw [if_pos hp] at h
        rcases List.mem_cons.mp h with rfl | h'
        · simp
        · exact ih _ _ _ h'
      · rw [if_neg hp] at h
        exact ih _ _ _ h

/-- Spans of a literal-pattern regex model are well-formed. -/
theorem litSpans_le {lit text : String} {se : Nat × Nat}
    (h : se ∈ litSpans lit text) : se.1 ≤ se.2 := by
  unfold litSpans at h
  split at h
  · simp at h
  · exact litScanF_le _ _ _ _ _ h

/-- C8 witness: a concrete run emitting one finding, with the conclusion
instantiated. -/
theorem claim8_witness :
    (analyze_file rnewLit ["d", "f.java"] ["d"] [rLitB] none "a\nb").vulns ≠ [] ∧
    ∀ v ∈ (analyze_file rnewLit ["d", "f.java"] ["d"] [rLitB] none "a\nb").vulns,
      ∃ s e, s ≤ e ∧
        v.start_line = (("a\nb").toList.take s).count '\n' ∧
        v.end_line = (("a\nb").toList.take e).count '\n' ∧
        v.start_line ≤ v.end_line :=
  ⟨by decide,
   claim8_lines
    (by
      intro r hr se hse
      rw [List.mem_singleton.mp hr] at hse
      rw [List.mem_singleton.mp hse]
      decide)
    (by
      intro pat re2 hrw se hse
      have hre : re2 = litRegex pat := (Option.some.inj hrw).symm
      rw [hre] at hse
      exact litSpans_le hse)⟩

/-- C9: no finding of the engine pipeline has a file path under
classes/android, classes/com/google/android/gms or smali, or under any
directory named original; and its file name is not AndroidManifest.xml,
R.java or R$*, and has extension exactly xml or java. -/
theorem claim9_exclusions (rnew : String → Option Regex) (root : Option (List Entry))
    (rules : List Rule) (manifest : Option Manifest) (dist : List String) :
    ∀ v ∈ (code_analysis rnew root rules manifest dist).vulns, goodPath v.file_path := by
  intro v hv
  unfold code_analysis run_queue at hv
  obtain ⟨j, hj, code, hc, hvan⟩ := mem_workerGo hv
  obtain ⟨fc, hfc, hjeq⟩ := List.mem_map.mp (List.mem_reverse.mp hj)
  obtain ⟨rel, hrel, hfp⟩ := analyze_file_rel hvan
  have hpath : j.path = dist ++ fc.1 := by rw [← hjeq]
  rw [hpath, stripPre_append] at hrel
  rw [hfp, (Option.some.inj hrel).symm]
  exact add_files_good root fc hfc

/-- C9 witness: a one-file tree produces one finding and its path is
good. -/
theorem claim9_witness :
    (code_analysis rnewLit wTree [rLitB] none ["d"]).vulns =
      [mk_vuln rLitB ["m.java"] "b" 0 1] ∧
    ∀ v ∈ (code_analysis rnewLit wTree [rLitB] none ["d"]).vulns, goodPath v.file_path := by
  have h1 : add_files_to_vec [] [] wTree = ([(["m.java"], some "b")], 0, true) := by
    simp only [add_files_to_vec, wTree, walk_entries]
    decide
  constructor
  · unfold code_analysis
    rw [h1]
    rfl
  · exact claim9_exclusions rnewLit wTree [rLitB] none ["d"]

/-- C10 counterexample: for the pattern `foo\B` on the text `fooo`, the
find iterator reports the span (0, 3) but `captures` on the matched
substring `foo` finds no match (the `\B` assertion fails at the end of the
shorter haystack), so the forward-check branch's unwrap panics — refuting
the claimed totality of capture extraction. -/
theorem claim10_counterexample :
    fooRule.forward_check = some "bar" ∧
    (0, 3) ∈ fooRule.regex.find_iter "fooo" ∧
    fooRule.regex.captures (sliceStr "fooo" 0 3) = none ∧
    (process_rule rnewLit fooRule none ["d", "f.java"] ["d"] "fooo").panicked = true :=
  ⟨rfl, by decide, rfl, rfl⟩

/-- C10 amended: when the rule's regex is self-consistent on the file text
— `captures` succeeds on the substring of every span its find iterator
reports, which holds for patterns without anchors or boundary assertions
but not in general — and the project-root strip succeeds, the evaluation
of the rule never panics. -/
theorem claim10_amended {rnew : String → Option Regex} {rule : Rule}
    {manifest : Option Manifest} {path dist : List String} {code : String}
    {rel : List String} (hst : stripPre dist path = some rel)
    (hcaps : ∀ se ∈ rule.regex.find_iter code,
      (rule.regex.captures (sliceStr code se.1 se.2)).isSome) :
    (process_rule rnew rule manifest path dist code).panicked = false := by
  unfold process_rule
  by_cases h1 : sdkSkip rule manifest = true
  · rw [if_pos h1]
  · rw [if_neg h1]
    by_cases h2 : permSkip rule manifest = true
    · rw [if_pos h2]
    · rw [if_neg h2]
      exact process_spans_no_panic hst _ hcaps

/-- C10 witness: a forward-check rule built from a literal pattern is
self-consistent and its evaluation does not panic. -/
theorem claim10_witness :
    (process_rule rnewLit fcRule none ["d", "f.java"] ["d"] "ab").panicked = false :=
  claim10_amended rfl
    (by
      intro se hse
      rw [List.mem_singleton.mp hse]
      decide)

end SuperCode
